import Mathlib

/-!
Verification of the `accounting` ledger program (a Go plain-text
double-entry ledger processor).

The development shallowly embeds the program's data model and core
algorithms:

* `Posting`, `Transaction`, `Trigger`, `Action` mirror the Go structs.
  Monetary amounts (`github.com/shopspring/decimal`, an exact decimal
  type closed under add/neg/mul with an exact zero test) are embedded as
  `ℚ`; a Go `*decimal.Decimal` (nilable pointer) becomes `Option ℚ`.
* `Transaction.AutoBalance` and `Transaction.Balance` embed the balancer.
  Go mutates the transaction in place, so `AutoBalance` returns the pair
  (error, post-state); the Go error path returns before any mutation, so
  in that case the post-state equals the input.
* `Action.Execute` embeds trigger-action execution, including the
  `${identifier}` template substitution done in Go with
  `regexp.MustCompile([$][{][A-Za-z0-9_]+[}]).ReplaceAllStringFunc`
  (written here as an explicit character scan, `expandTemplate`) and the
  nil-pointer dereference of the source posting's amount (`none` result).
* `runTriggersOnPosting` / `rewriteLoop` / `applyTriggersTx` embed the
  trigger rewrite loop of `main` (index-based scan over a growing posting
  list, self-exclusion check, and posting-count ceiling, the ceiling kept
  as the parameter `limit` since the two observed entry points use 1000
  and 100). The loop is written on fuel; `applyTriggersTx` supplies
  `limit + 2` which is proved sufficient. The loop also returns a trace
  of every (trigger id, posting) pair whose matchers were evaluated,
  instrumentation used to state the self-exclusion property.
* `balanceLoop` / `balancePhase` embed the balancing phase of `main`
  (report every failure, exit once at the end), with a Go runtime panic
  (nil amount dereference inside `Balance`) modelled as `.panicked`.
* `fy` embeds the fiscal-year helper injected into scripted matchers.

Matchers are embedded at their interface (`Matcher`, a function from a
transaction and a posting to a match flag and capture bindings), exactly
the capability the Go `Matcher` interface provides; the regexp engine and
the JavaScript interpreter behind the two concrete implementations are
external collaborators.
-/

namespace Accounting

/- Batteries marks the `Rat` arithmetic operations `@[irreducible]`,
which stops `decide` from evaluating concrete ledger amounts; restore
the default reducibility for this development so concrete runs of the
embedded code reduce. -/
attribute [local semireducible] Rat.add Rat.mul Rat.sub Rat.inv

/-- Posting kinds, from the Go `PostingType` constants
(`RealPosting`, `VirtualPosting`, `BalancedVirtualPosting`). -/
inductive PostingType where
  | RealPosting
  | VirtualPosting
  | BalancedVirtualPosting
deriving DecidableEq, Repr

/-- Calendar date, standing in for Go's `time.Time` (only the fields the
embedded code inspects: year and month, plus the day for completeness). -/
structure GoDate where
  year : Int
  month : Nat
  day : Nat
deriving DecidableEq, Repr

/-- The Go `Posting` struct. `Amount *decimal.Decimal` becomes
`Option ℚ` (`none` = nil = elided amount). `GeneratedBy` and `From`
default to Go's zero value 0. -/
structure Posting where
  type : PostingType
  account : String
  amount : Option ℚ
  comment : String := ""
  generatedBy : Int := 0
  fromIdx : Int := 0
deriving DecidableEq, Repr

/-- The Go `Transaction` struct (date, description, postings). -/
structure Transaction where
  date : GoDate
  description : String
  postings : List Posting
deriving DecidableEq, Repr

/-- The Go `Action` struct: posting kind, account template, multiplier
(`Amount decimal.Decimal`, not nilable), comment. -/
structure Action where
  type : PostingType
  account : String
  amount : ℚ
  comment : String := ""
deriving DecidableEq, Repr

/-- Capture bindings, embedding the Go `map[string]string`. The list is
written in insertion order; lookup takes the latest binding, matching
map overwrite semantics. -/
abbrev Captures := List (String × String)

/-- Go map read `m[k]`: the latest value bound to `k`, or the zero value
`""` when `k` is absent. -/
def capGet (m : Captures) (k : String) : String :=
  m.foldl (fun acc e => if e.1 = k then e.2 else acc) ""

/-- The Go `Matcher` interface at its capability:
`Match(t *Transaction, p *Posting) (bool, map[string]string)`. -/
def Matcher : Type := Transaction → Posting → Bool × Captures

/-- The Go `Trigger` struct. -/
structure Trigger where
  id : Int
  matchers : List Matcher
  actions : List Action

/-- Character class of the Go template placeholder regexp, `[A-Za-z0-9_]`. -/
def isTemplateIdentChar (c : Char) : Bool :=
  c.isAlpha || c.isDigit || c = '_'

/-- Leftmost non-overlapping replacement of every `${identifier}`
(identifier nonempty, over `[A-Za-z0-9_]`), embedding
`ReplaceAllStringFunc` with the pattern used by `Action.Execute`. At a
`$` followed by `{`, a maximal run of identifier characters followed by
`}` is a match (the replacement function receives the identifier, which
is what `strings.Trim(s, "${}")` leaves of the matched text); otherwise
the scan advances one character. Fuel is one unit per character; each
step consumes at least one character, so `expandTemplate cs.length cs f`
never exhausts it. -/
def expandTemplate : Nat → List Char → (String → String) → List Char
  | 0, cs, _ => cs
  | _ + 1, [], _ => []
  | n + 1, '$' :: cs, f =>
    match cs with
    | '{' :: rest =>
      match rest.span isTemplateIdentChar with
      | (c :: ident, '}' :: rest') =>
        (f (String.mk (c :: ident))).data ++ expandTemplate n rest' f
      | _ => '$' :: expandTemplate n cs f
    | _ => '$' :: expandTemplate n cs f
  | n + 1, c :: cs, f => c :: expandTemplate n cs f

/-- String-level entry point of the template substitution. -/
def replaceTemplateVars (template : String) (f : String → String) : String :=
  String.mk (expandTemplate template.data.length template.data f)

/-- The Go `Action.Execute`: dereferences `p.Amount` (a nil pointer —
an elided amount — makes the Go program panic, embedded as `none`),
multiplies it by the action's amount, and builds a new posting whose
account is the action's account template with every `${identifier}`
replaced: `account` by the source posting's account, anything else by
the capture bound to it (the empty string when absent). The remaining
fields of the Go composite literal take their zero values. -/
def Action.Execute (a : Action) (p : Posting) (m : Captures) : Option Posting :=
  match p.amount with
  | none => none
  | some q =>
    some { type := a.type
           amount := some (q * a.amount)
           account := replaceTemplateVars a.account fun s =>
             if s = "account" then p.account else capGet m s }

/-- Matcher conjunction of `Trigger.Match`: run matchers in order,
short-circuit on the first failure returning `(false, nil)`, and merge
capture maps with later matchers overwriting earlier keys. -/
def matchRun (tx : Transaction) (p : Posting) : List Matcher → Captures → Bool × Captures
  | [], m => (true, m)
  | e :: rest, m =>
    let bm := e tx p
    if bm.1 then matchRun tx p rest (m ++ bm.2) else (false, [])

/-- The Go `Trigger.Match`. -/
def Trigger.Match (t : Trigger) (tx : Transaction) (p : Posting) : Bool × Captures :=
  matchRun tx p t.matchers []

/-- The Go error string of `Transaction.AutoBalance`. -/
def autoBalanceErr : String := "AutoBalance: a transaction may only have one elided value"

/-- The scan loop of `Transaction.AutoBalance`: walk the postings
keeping whether an elided amount was already seen (`toFill != nil`) and
the running total of the set amounts; a second elided amount is the
error (`none`). -/
def abScan : List Posting → Bool → ℚ → Option (Bool × ℚ)
  | [], found, total => some (found, total)
  | p :: rest, found, total =>
    match p.amount with
    | none => if found then none else abScan rest true total
    | some a => abScan rest found (total + a)

/-- Write `v` into the first elided posting, embedding the Go in-place
assignment through the `toFill` pointer. -/
def fillFirstElided (v : ℚ) : List Posting → List Posting
  | [] => []
  | p :: rest =>
    match p.amount with
    | none => { p with amount := some v } :: rest
    | some _ => p :: fillFirstElided v rest

/-- The Go `Transaction.AutoBalance`. Returns (error, post-state): the
Go method mutates the transaction in place only after the scan finishes,
so on the error path the post-state is the unchanged input; on success
with an elided posting its amount becomes the negated total of every
other posting's amount. -/
def Transaction.AutoBalance (t : Transaction) : Option String × Transaction :=
  match abScan t.postings false 0 with
  | none => (some autoBalanceErr, t)
  | some (false, _) => (none, t)
  | some (true, total) => (none, { t with postings := fillFirstElided (-total) t.postings })

/-- Outcome of `Transaction.Balance`: success, the imbalance error
carrying the reported residual (Go formats it into
`"Balance: transactions must balance to zero; instead got %s"`), or the
runtime panic the Go code hits dereferencing a nil `Amount`. -/
inductive BalanceResult where
  | balanced
  | imbalance (residual : ℚ)
  | nilPanic
deriving DecidableEq, Repr

/-- The summation loop of `Transaction.Balance`: skip `VirtualPosting`
postings, dereference every other posting's amount (nil = panic), and
require the total to be exactly zero. -/
def balanceGo : List Posting → ℚ → BalanceResult
  | [], total => if total = 0 then .balanced else .imbalance total
  | p :: rest, total =>
    if p.type = PostingType.VirtualPosting then balanceGo rest total
    else
      match p.amount with
      | none => .nilPanic
      | some a => balanceGo rest (total + a)

/-- The Go `Transaction.Balance`. -/
def Transaction.Balance (t : Transaction) : BalanceResult :=
  balanceGo t.postings 0

/-- Sum of the set amounts of a posting list (every kind). -/
def sumAmounts (ps : List Posting) : ℚ :=
  (ps.filterMap Posting.amount).sum

/-- Sum of the set amounts of the postings whose kind is not Virtual
(Real and BalancedVirtual both included) — the quantity the balance
check requires to be zero. -/
def nonVirtualSum (ps : List Posting) : ℚ :=
  ((ps.filter fun p => p.type ≠ PostingType.VirtualPosting).filterMap Posting.amount).sum

/-- Number of elided (amount-unset) postings. -/
def countElided (ps : List Posting) : Nat :=
  ps.countP fun p => p.amount.isNone

/-- The fiscal-year helper `fy` injected into scripted matchers by the
parser: months January–June label the fiscal year ending in `year`,
later months the one starting in `year`; each component is
`fmt.Sprintf("%d", y % 100)` with Go's truncated `%`, i.e. plain decimal
with no zero padding. -/
def fy (d : GoDate) : String :=
  if 1 ≤ d.month && d.month ≤ 6 then
    "FY" ++ toString (Int.tmod (d.year - 1) 100) ++ toString (Int.tmod d.year 100)
  else
    "FY" ++ toString (Int.tmod d.year 100) ++ toString (Int.tmod (d.year + 1) 100)

/-- Two-digit zero-padded rendering of `y % 100`, the rendering the
specification ascribes to the `fy` components ("each year component
rendered as exactly two digits"). -/
def twoDigitOfInt (y : Int) : String :=
  let r := Int.tmod y 100
  if r < 10 then "0" ++ toString r else toString r

/-- Modelled from the spec's words for comparison with `fy`: the label
`FY<year-1 two-digit><year two-digit>` for January–June, else
`FY<year two-digit><year+1 two-digit>`. -/
def fyClaimed (d : GoDate) : String :=
  if 1 ≤ d.month && d.month ≤ 6 then
    "FY" ++ twoDigitOfInt (d.year - 1) ++ twoDigitOfInt d.year
  else
    "FY" ++ twoDigitOfInt d.year ++ twoDigitOfInt (d.year + 1)

/-- The `fy` label with its components spelled out as unpadded decimal
renderings of the truncated remainders — the amended reading of the
specification's format. -/
def fyAmended (d : GoDate) : String :=
  let yrs : Int × Int :=
    if 1 ≤ d.month && d.month ≤ 6 then (d.year - 1, d.year) else (d.year, d.year + 1)
  "FY" ++ toString (Int.tmod yrs.1 100) ++ toString (Int.tmod yrs.2 100)

/-- Execute every action of a fully matched trigger against source
posting `p` (capture map `m`), in order, stamping the generated postings
with `GeneratedBy = trId` and `From = i + 1` as `main` does. A nil
amount dereference inside `Action.Execute` (Go panic) is `none`. -/
def execActions (trId : Int) (i : Nat) (p : Posting) (m : Captures) :
    List Action → Option (List Posting)
  | [] => some []
  | a :: rest =>
    match Action.Execute a p m with
    | none => none
    | some pp =>
      match execActions trId i p m rest with
      | none => none
      | some l => some ({ pp with generatedBy := trId, fromIdx := (i : Int) + 1 } :: l)

/-- The trigger loop of `main` for the posting at index `i`: for each
trigger in declaration order, skip it when `p.GeneratedBy == tr.ID`
(self-exclusion); otherwise evaluate its matchers against the
transaction in its current state (`ps`) and, on a full match, append
every action's output posting. Returns the grown posting list (`none`
when Go would panic on a nil amount) together with the evaluation trace:
every `(trigger id, posting)` pair whose matchers were actually
evaluated — a trigger's actions execute only directly after such an
evaluation of the same pair. -/
def runTriggersOnPosting (tx : Transaction) (i : Nat) (p : Posting) :
    List Trigger → List Posting → List (Int × Posting) →
    Option (List Posting) × List (Int × Posting)
  | [], ps, trace => (some ps, trace)
  | t :: rest, ps, trace =>
    if p.generatedBy = t.id then
      runTriggersOnPosting tx i p rest ps trace
    else if (Trigger.Match t { tx with postings := ps } p).1 then
      match execActions t.id i p (Trigger.Match t { tx with postings := ps } p).2 t.actions with
      | none => (none, trace ++ [(t.id, p)])
      | some news => runTriggersOnPosting tx i p rest (ps ++ news) (trace ++ [(t.id, p)])
    else
      runTriggersOnPosting tx i p rest ps (trace ++ [(t.id, p)])

/-- Result of the rewrite loop on one transaction: normal completion,
the fatal `"posting cycle detected"` error (posting count exceeded the
ceiling), the Go runtime panic on a nil amount dereference, or fuel
exhaustion of the embedding (proved unreachable for the fuel
`applyTriggersTx` supplies). -/
inductive RewriteResult where
  | done (ps : List Posting)
  | cycleError (ps : List Posting)
  | panicNil
  | outOfFuel
deriving DecidableEq, Repr

/-- Whether the rewrite loop ended in the fatal cycle-detection error. -/
def RewriteResult.isCycleDetected : RewriteResult → Bool
  | .cycleError _ => true
  | _ => false

/-- The index loop of `main` over a transaction's postings:
`for i := 0; i < len(tx.Postings); i++`, re-reading the length each
iteration so that appended postings are scanned too, and checking
`len(tx.Postings) > limit` after each index (the cycle ceiling; 1000
and 100 in the two observed entry points). Written on fuel, one unit
per index processed. -/
def rewriteLoop (limit : Nat) (trs : List Trigger) (tx : Transaction) :
    Nat → Nat → List Posting → List (Int × Posting) →
    RewriteResult × List (Int × Posting)
  | 0, _, _, trace => (.outOfFuel, trace)
  | fuel + 1, i, ps, trace =>
    if h : i < ps.length then
      match runTriggersOnPosting tx i (ps.get ⟨i, h⟩) trs ps trace with
      | (none, trace') => (.panicNil, trace')
      | (some ps', trace') =>
        if limit < ps'.length then (.cycleError ps', trace')
        else rewriteLoop limit trs tx fuel (i + 1) ps' trace'
    else
      (.done ps, trace)

/-- The rewrite engine on one transaction. Fuel `limit + 2` is
sufficient: each index costs one unit, and past the first index the
loop only continues while `i < len(postings) ≤ limit`. -/
def applyTriggersTx (limit : Nat) (trs : List Trigger) (tx : Transaction) :
    RewriteResult × List (Int × Posting) :=
  rewriteLoop limit trs tx (limit + 2) 0 tx.postings []

/-- One reported failure of the balancing phase of `main`: the
`AutoBalance` error (printed with the offending transaction) or the
`Balance` imbalance error (printed with the transaction and the
residual). -/
inductive TxFailure where
  | autoBal (t : Transaction)
  | imbalance (t : Transaction) (residual : ℚ)
deriving DecidableEq, Repr

/-- How the balancing phase ended: normally (with `failed` saying
whether `os.Exit(1)` follows), or in a Go runtime panic (`Balance`
dereferenced a nil amount). -/
inductive RunOutcome where
  | completed (failed : Bool)
  | panicked
deriving DecidableEq, Repr

/-- The balancing phase of `main`: for every transaction run
`AutoBalance` then `Balance` on the (possibly filled) transaction,
report each failure, and only exit after the whole list is processed.
Returns the reports in order and the outcome; a panic aborts
immediately, keeping the reports already printed. -/
def balanceLoop : List Transaction → Bool → List TxFailure × RunOutcome
  | [], failed => ([], .completed failed)
  | tx :: rest, failed =>
    let ab := tx.AutoBalance
    let r1 : List TxFailure := match ab.1 with
      | some _ => [.autoBal tx]
      | none => []
    match ab.2.Balance with
    | .nilPanic => (r1, .panicked)
    | .balanced =>
      let r2 := balanceLoop rest (failed || ab.1.isSome)
      (r1 ++ r2.1, r2.2)
    | .imbalance q =>
      let r2 := balanceLoop rest true
      (r1 ++ [.imbalance ab.2 q] ++ r2.1, r2.2)

/-- Entry point of the balancing phase (`failed` starts false). -/
def balancePhase (txs : List Transaction) : List TxFailure × RunOutcome :=
  balanceLoop txs false

/-- The concrete scenario transaction `2024-01-01 Paycheck` with
postings `Assets:Bank $1000` and elided `Income:Salary`. -/
def paycheckTx : Transaction :=
  { date := ⟨2024, 1, 1⟩
    description := "Paycheck"
    postings := [ { type := .RealPosting, account := "Assets:Bank", amount := some 1000 }
                , { type := .RealPosting, account := "Income:Salary", amount := none } ] }

/-- A transaction with two elided postings. -/
def twoElidedTx : Transaction :=
  { date := ⟨2024, 1, 2⟩
    description := "Ambiguous"
    postings := [ { type := .RealPosting, account := "A", amount := some 7 }
                , { type := .RealPosting, account := "B", amount := none }
                , { type := .RealPosting, account := "C", amount := none } ] }

/-- An imbalanced transaction with every amount set (residual 5). -/
def imbalancedTx : Transaction :=
  { date := ⟨2024, 1, 3⟩
    description := "Tilted"
    postings := [ { type := .RealPosting, account := "A", amount := some 8 }
                , { type := .VirtualPosting, account := "V", amount := some 1 }
                , { type := .BalancedVirtualPosting, account := "W", amount := some (-3) } ] }

/-- A matcher testing the posting's account for equality with `name`
(an instance of the `Matcher` capability, as the Go regexp matcher is). -/
def matcherAcct (name : String) : Matcher :=
  fun _ p => (p.account = name, [])

/-- Trigger 1 of the mutually-matching pair: fires on account `"x"`,
generates account `"y"`. -/
def trCycA : Trigger :=
  { id := 1
    matchers := [matcherAcct "x"]
    actions := [{ type := .RealPosting, account := "y", amount := 1 }] }

/-- Trigger 2 of the mutually-matching pair: fires on account `"y"`,
generates account `"x"`. -/
def trCycB : Trigger :=
  { id := 2
    matchers := [matcherAcct "y"]
    actions := [{ type := .RealPosting, account := "x", amount := 1 }] }

/-- A user-authored posting on account `"x"` (`GeneratedBy = 0`). -/
def cycP : Posting :=
  { type := .RealPosting, account := "x", amount := some 1 }

/-- Seed transaction for the cycle example: one posting on `"x"`. -/
def cycTx : Transaction :=
  { date := ⟨2024, 2, 1⟩
    description := "Cycle"
    postings := [cycP] }

/-- A trigger whose single matcher matches its own action's output
account (`"x"`), the self-exclusion test case; it also never binds
captures, so the action template is literal. -/
def trSelf : Trigger :=
  { id := 1
    matchers := [matcherAcct "x"]
    actions := [{ type := .VirtualPosting, account := "x", amount := 1 }] }

/-- A transaction whose elided posting is matched by `trSelf`'s and
`trOnX`'s matcher. -/
def elidedMatchedTx : Transaction :=
  { date := ⟨2024, 3, 1⟩
    description := "Elided"
    postings := [{ type := .RealPosting, account := "x", amount := none }] }

/-- A trigger matching account `"x"` and generating a tax line at a
tenth of the source amount. -/
def trOnX : Trigger :=
  { id := 1
    matchers := [matcherAcct "x"]
    actions := [{ type := .RealPosting, account := "${account}:tax", amount := 1 / 10 }] }

/-- An action carrying a comment, whose kind is `VirtualPosting`. -/
def actWithComment : Action :=
  { type := .VirtualPosting, account := "t", amount := 2, comment := "note" }

/-- A source posting with a set amount and a comment of its own. -/
def srcPosting : Posting :=
  { type := .RealPosting, account := "s", amount := some 3, comment := "src" }

/-- The capture-substitution action of the specification's test:
template `${1}:tax`, multiplier one tenth. -/
def taxAction : Action :=
  { type := .RealPosting, account := "${1}:tax", amount := 1 / 10 }

/-- Source posting for the substitution examples. -/
def rentPosting : Posting :=
  { type := .RealPosting, account := "expenses:rent", amount := some 100 }

/-- Action whose template uses the special `${account}` placeholder. -/
def accountTaxAction : Action :=
  { type := .BalancedVirtualPosting, account := "${account}:tax", amount := 1 }

/-- Action whose template names a capture that is not bound. -/
def missingCapAction : Action :=
  { type := .RealPosting, account := "${missing}x", amount := 1 }

/-! ## Lemmas about the balancer -/

theorem sumAmounts_nil : sumAmounts [] = 0 := rfl

theorem sumAmounts_cons_some {p : Posting} {a : ℚ} (l : List Posting)
    (ha : p.amount = some a) : sumAmounts (p :: l) = a + sumAmounts l := by
  simp [sumAmounts, List.filterMap_cons, ha]

theorem sumAmounts_cons_none {p : Posting} (l : List Posting)
    (ha : p.amount = none) : sumAmounts (p :: l) = sumAmounts l := by
  simp [sumAmounts, List.filterMap_cons, ha]

theorem sumAmounts_append (l r : List Posting) :
    sumAmounts (l ++ r) = sumAmounts l + sumAmounts r := by
  simp [sumAmounts, List.filterMap_append]

/-- Scanning amount-set postings accumulates their sum and finds no new
elided posting. -/
theorem abScan_append_allSet (l : List Posting) (rest : List Posting) (found : Bool)
    (total : ℚ) (h : ∀ p ∈ l, p.amount.isSome = true) :
    abScan (l ++ rest) found total = abScan rest found (total + sumAmounts l) := by
  induction l generalizing total with
  | nil => simp [sumAmounts_nil]
  | cons p l ih =>
    obtain ⟨a, ha⟩ := Option.isSome_iff_exists.mp (h p (List.mem_cons_self p l))
    have hrest : ∀ q ∈ l, q.amount.isSome = true := fun q hq => h q (List.mem_cons_of_mem p hq)
    rw [List.cons_append]
    rw [show abScan (p :: (l ++ rest)) found total = abScan (l ++ rest) found (total + a) by
      simp [abScan, ha]]
    rw [ih (total + a) hrest, sumAmounts_cons_some l ha, add_assoc]

theorem abScan_allSet (l : List Posting) (found : Bool) (total : ℚ)
    (h : ∀ p ∈ l, p.amount.isSome = true) :
    abScan l found total = some (found, total + sumAmounts l) := by
  have := abScan_append_allSet l [] found total h
  simpa [abScan] using this

/-- Filling the transaction writes into the first elided posting. -/
theorem fillFirstElided_append (v : ℚ) (pre post : List Posting) (pj : Posting)
    (hpre : ∀ p ∈ pre, p.amount.isSome = true) (hj : pj.amount = none) :
    fillFirstElided v (pre ++ pj :: post) = pre ++ { pj with amount := some v } :: post := by
  induction pre with
  | nil => simp [fillFirstElided, hj]
  | cons p l ih =>
    obtain ⟨a, ha⟩ := Option.isSome_iff_exists.mp (hpre p (List.mem_cons_self p l))
    have hrest : ∀ q ∈ l, q.amount.isSome = true := fun q hq => hpre q (List.mem_cons_of_mem p hq)
    simp [fillFirstElided, ha, ih hrest]

/-- `AutoBalance` on a transaction with exactly one elided posting:
no error, and that posting's amount becomes the negated sum of every
other posting's amount (all kinds summed). -/
theorem autoBalance_single_elided (t : Transaction) (pre post : List Posting) (pj : Posting)
    (hps : t.postings = pre ++ pj :: post)
    (hpre : ∀ p ∈ pre, p.amount.isSome = true)
    (hj : pj.amount = none)
    (hpost : ∀ p ∈ post, p.amount.isSome = true) :
    t.AutoBalance =
      (none, { t with postings :=
        pre ++ { pj with amount := some (-(sumAmounts (pre ++ post))) } :: post }) := by
  have hscan : abScan t.postings false 0 =
      some (true, 0 + sumAmounts pre + sumAmounts post) := by
    rw [hps, abScan_append_allSet pre (pj :: post) false 0 hpre]
    have hstep : abScan (pj :: post) false (0 + sumAmounts pre) =
        abScan post true (0 + sumAmounts pre) := by
      simp [abScan, hj]
    rw [hstep, abScan_allSet post true _ hpost]
  unfold Transaction.AutoBalance
  rw [hscan]
  simp [hps, sumAmounts_append]
  exact fillFirstElided_append _ pre post pj hpre hj

/-- Scanning a list holding at least one elided posting after one was
already found is the double-elision error. -/
theorem abScan_found_err (l : List Posting) (total : ℚ)
    (h : 1 ≤ countElided l) : abScan l true total = none := by
  induction l generalizing total with
  | nil => simp [countElided] at h
  | cons p l ih =>
    cases ha : p.amount with
    | none => simp [abScan, ha]
    | some a =>
      have : 1 ≤ countElided l := by
        simpa [countElided, List.countP_cons, ha] using h
      simpa [abScan, ha] using ih _ this

/-- Scanning a list holding at least two elided postings is the
double-elision error. -/
theorem abScan_two_err (l : List Posting) (total : ℚ)
    (h : 2 ≤ countElided l) : abScan l false total = none := by
  induction l generalizing total with
  | nil => simp [countElided] at h
  | cons p l ih =>
    cases ha : p.amount with
    | none =>
      have hcount : countElided (p :: l) = countElided l + 1 := by
        simp [countElided, List.countP_cons, ha]
      have : 1 ≤ countElided l := by omega
      simp [abScan, ha, abScan_found_err l total this]
    | some a =>
      have : 2 ≤ countElided l := by
        simpa [countElided, List.countP_cons, ha] using h
      simpa [abScan, ha] using ih _ this

/-- The non-virtual total scanned by `Balance` over amount-set postings. -/
theorem balanceGo_allSet (l : List Posting) (total : ℚ)
    (h : ∀ p ∈ l, p.amount.isSome = true) :
    balanceGo l total =
      if total + nonVirtualSum l = 0 then .balanced
      else .imbalance (total + nonVirtualSum l) := by
  induction l generalizing total with
  | nil => simp [balanceGo, nonVirtualSum]
  | cons p l ih =>
    obtain ⟨a, ha⟩ := Option.isSome_iff_exists.mp (h p (List.mem_cons_self p l))
    have hrest : ∀ q ∈ l, q.amount.isSome = true := fun q hq => h q (List.mem_cons_of_mem p hq)
    by_cases hv : p.type = PostingType.VirtualPosting
    · rw [show balanceGo (p :: l) total = balanceGo l total by simp [balanceGo, hv]]
      rw [ih _ hrest]
      simp [nonVirtualSum, List.filter_cons, hv]
    · rw [show balanceGo (p :: l) total = balanceGo l (total + a) by simp [balanceGo, hv, ha]]
      rw [ih _ hrest]
      have : nonVirtualSum (p :: l) = a + nonVirtualSum l := by
        simp [nonVirtualSum, List.filter_cons, hv, List.filterMap_cons, ha]
      rw [this, ← add_assoc]

/-! ## Claim theorems: the balancer -/

/-- C1. For every transaction in which exactly one posting has an unset
amount (written as the decomposition `pre ++ pj :: post` with `pj` the
elided posting and every other amount set), `AutoBalance` succeeds and
sets that posting's amount to the negation of the sum of all the other
postings' amounts, summing every posting regardless of kind
(`sumAmounts` filters on nothing but presence of an amount); and the
concrete transaction `2024-01-01 Paycheck` with postings
`Assets:Bank $1000` and elided `Income:Salary` gets `Income:Salary` set
to `-1000` and then passes the balance check. -/
theorem autoBalance_fills_single_elided :
    (∀ (t : Transaction) (pre post : List Posting) (pj : Posting),
        t.postings = pre ++ pj :: post →
        (∀ p ∈ pre, p.amount.isSome = true) →
        pj.amount = none →
        (∀ p ∈ post, p.amount.isSome = true) →
        t.AutoBalance =
          (none, { t with postings :=
            pre ++ { pj with amount := some (-(sumAmounts (pre ++ post))) } :: post }))
  ∧ paycheckTx.AutoBalance.1 = none
  ∧ paycheckTx.AutoBalance.2.postings.map Posting.amount = [some 1000, some (-1000)]
  ∧ paycheckTx.AutoBalance.2.Balance = BalanceResult.balanced :=
  ⟨autoBalance_single_elided, by decide, by decide, by decide⟩

/-- C2. For a transaction all of whose postings have set amounts,
`Balance` succeeds exactly when the sum of the amounts of the postings
whose kind is not Virtual (Real and BalancedVirtual both included) is
zero, and a non-zero sum is the hard imbalance error carrying that
residual sum. -/
theorem balance_zero_iff_nonvirtual_sum (t : Transaction)
    (h : ∀ p ∈ t.postings, p.amount.isSome = true) :
    (t.Balance = BalanceResult.balanced ↔ nonVirtualSum t.postings = 0)
  ∧ (nonVirtualSum t.postings ≠ 0 →
      t.Balance = BalanceResult.imbalance (nonVirtualSum t.postings)) := by
  unfold Transaction.Balance
  rw [balanceGo_allSet t.postings 0 h, zero_add]
  by_cases hz : nonVirtualSum t.postings = 0
  · simp [hz]
  · simp [hz]

/-- Witness for C2 at the concrete imbalanced transaction
(`imbalancedTx`, residual 5, with kinds Real, Virtual and
BalancedVirtual all present). -/
theorem balance_zero_iff_nonvirtual_sum_witness :
    (imbalancedTx.Balance = BalanceResult.balanced ↔ nonVirtualSum imbalancedTx.postings = 0)
  ∧ (nonVirtualSum imbalancedTx.postings ≠ 0 →
      imbalancedTx.Balance = BalanceResult.imbalance (nonVirtualSum imbalancedTx.postings)) :=
  balance_zero_iff_nonvirtual_sum imbalancedTx (by decide)

/-- C6. A transaction with two or more elided postings makes
`AutoBalance` fail with the Go error
`"AutoBalance: a transaction may only have one elided value"` and
leaves the transaction — in particular every posting's amount —
unchanged; concretely so for `twoElidedTx`. -/
theorem autoBalance_rejects_double_elision :
    (∀ t : Transaction, 2 ≤ countElided t.postings →
        t.AutoBalance = (some autoBalanceErr, t))
  ∧ twoElidedTx.AutoBalance = (some autoBalanceErr, twoElidedTx) := by
  constructor
  · intro t ht
    unfold Transaction.AutoBalance
    rw [abScan_two_err t.postings 0 ht]
  · decide

/-- C7 (evidence of the code defect). In the balancing phase of `main`,
a first transaction with two elided postings has its `AutoBalance`
failure reported, but the unconditional `Balance` call that follows
dereferences the still-nil amount and panics, so the run aborts before
the second transaction — itself imbalanced with residual 5 — is ever
checked or reported. -/
theorem balancePhase_panics_before_later_reports :
    balancePhase [twoElidedTx, imbalancedTx] =
      ([TxFailure.autoBal twoElidedTx], RunOutcome.panicked)
  ∧ imbalancedTx.Balance = BalanceResult.imbalance 5 := by
  constructor
  · decide
  · decide

/-! ## Claim theorems: Action.Execute -/

/-- C8 (counterexample). The posting `Action.Execute` returns does not
copy the action's comment: for the concrete action whose comment is
`"note"`, the generated posting's comment is `""`. -/
theorem execute_comment_not_copied_cex :
    (Action.Execute actWithComment srcPosting []).map Posting.comment = some ""
  ∧ actWithComment.comment = "note"
  ∧ (Action.Execute actWithComment srcPosting []).map Posting.comment
      ≠ some actWithComment.comment := by
  refine ⟨by decide, by decide, by decide⟩

/-- C8 (amended). The posting returned by `Action.Execute` has its kind
copied from the action definition, but its comment is always the empty
string (the Go composite literal never sets `Comment`, so the action's
comment is not copied); `Execute` is a pure constructor of the new
posting — in this embedding a function of its arguments, which are not
modified. Concretely, the `VirtualPosting` kind of `actWithComment` is
copied. -/
theorem execute_copies_kind_only :
    (∀ (a : Action) (p : Posting) (m : Captures) (out : Posting),
        Action.Execute a p m = some out →
        out.type = a.type ∧ out.comment = "" ∧ out.generatedBy = 0 ∧ out.fromIdx = 0)
  ∧ (Action.Execute actWithComment srcPosting []).map Posting.type
      = some PostingType.VirtualPosting := by
  constructor
  · intro a p m out hout
    unfold Action.Execute at hout
    cases hp : p.amount with
    | none => rw [hp] at hout; exact absurd hout (by simp)
    | some q =>
      rw [hp] at hout
      simp only [Option.some.injEq] at hout
      subst hout
      exact ⟨rfl, rfl, rfl, rfl⟩
  · decide

/-! ## Lemmas about template substitution -/

theorem takeWhile_ident_stop (l rest : List Char)
    (hl : ∀ c ∈ l, isTemplateIdentChar c = true) :
    (l ++ '}' :: rest).takeWhile isTemplateIdentChar = l := by
  induction l with
  | nil =>
    have : isTemplateIdentChar '}' = false := by decide
    simp [List.takeWhile_cons, this]
  | cons c l ih =>
    have hc := hl c (List.mem_cons_self c l)
    simp [List.takeWhile_cons, hc, ih fun d hd => hl d (List.mem_cons_of_mem c hd)]

theorem dropWhile_ident_stop (l rest : List Char)
    (hl : ∀ c ∈ l, isTemplateIdentChar c = true) :
    (l ++ '}' :: rest).dropWhile isTemplateIdentChar = '}' :: rest := by
  induction l with
  | nil =>
    have : isTemplateIdentChar '}' = false := by decide
    simp [List.dropWhile_cons, this]
  | cons c l ih =>
    have hc := hl c (List.mem_cons_self c l)
    simp [List.dropWhile_cons, hc, ih fun d hd => hl d (List.mem_cons_of_mem c hd)]

/-- The identifier scan of the placeholder regexp: a run of identifier
characters directly followed by `}` is split exactly there. -/
theorem span_ident_stop (l rest : List Char)
    (hl : ∀ c ∈ l, isTemplateIdentChar c = true) :
    (l ++ '}' :: rest).span isTemplateIdentChar = (l, '}' :: rest) := by
  rw [List.span_eq_take_drop, takeWhile_ident_stop l rest hl, dropWhile_ident_stop l rest hl]

theorem expandTemplate_nil (n : Nat) (f : String → String) :
    expandTemplate n [] f = [] := by
  cases n <;> rfl

/-- A template that is exactly one placeholder `${c⋯}` expands to the
replacement of its identifier. -/
theorem expandTemplate_whole (n : Nat) (c : Char) (l : List Char) (f : String → String)
    (hl : ∀ d ∈ c :: l, isTemplateIdentChar d = true) :
    expandTemplate (n + 1) ('$' :: '{' :: ((c :: l) ++ ['}'])) f
      = (f (String.mk (c :: l))).data := by
  simp only [expandTemplate]
  rw [show ((c :: l) ++ ['}']).span isTemplateIdentChar = (c :: l, ['}']) from
    span_ident_stop (c :: l) [] hl]
  simp [expandTemplate_nil]

/-- String-level form: substituting in the template `"${ident}"`
(nonempty identifier over `[A-Za-z0-9_]`) yields `f ident`. -/
theorem replaceTemplateVars_placeholder (l : List Char) (f : String → String)
    (hne : l ≠ []) (hl : ∀ d ∈ l, isTemplateIdentChar d = true) :
    replaceTemplateVars (String.mk ('$' :: '{' :: (l ++ ['}']))) f = f (String.mk l) := by
  cases l with
  | nil => exact absurd rfl hne
  | cons c l =>
    unfold replaceTemplateVars
    rw [show (String.mk ('$' :: '{' :: ((c :: l) ++ ['}']))).data.length
          = ('{' :: ((c :: l) ++ ['}'])).length + 1 from rfl]
    rw [expandTemplate_whole _ c l f hl]

/-! ## Claim theorem: Action.Execute substitution -/

/-- C5. For every source posting with a set amount and every capture
mapping, `Action.Execute` returns a posting whose amount is the source
amount times the action's multiplier; when the action's template is a
single `${identifier}` placeholder, the returned account is the source
posting's account for `${account}` and the capture bound to the
identifier (empty when absent) otherwise; and concretely, captures
`{"1": "rent"}` with template `${1}:tax` yield account `rent:tax`
(amount `100 * 1/10 = 10`), `${account}:tax` yields
`expenses:rent:tax`, and the unbound `${missing}x` yields `x`. -/
theorem execute_multiplies_and_substitutes :
    (∀ (a : Action) (p : Posting) (m : Captures) (q : ℚ), p.amount = some q →
        (Action.Execute a p m).map Posting.amount = some (some (q * a.amount)))
  ∧ (∀ (a : Action) (p : Posting) (m : Captures) (q : ℚ) (l : List Char),
        p.amount = some q → l ≠ [] → (∀ d ∈ l, isTemplateIdentChar d = true) →
        a.account = String.mk ('$' :: '{' :: (l ++ ['}'])) →
        (Action.Execute a p m).map Posting.account =
          some (if String.mk l = "account" then p.account else capGet m (String.mk l)))
  ∧ (Action.Execute taxAction rentPosting [("1", "rent")]).map Posting.account = some "rent:tax"
  ∧ (Action.Execute taxAction rentPosting [("1", "rent")]).map Posting.amount = some (some 10)
  ∧ (Action.Execute accountTaxAction rentPosting [("1", "rent")]).map Posting.account
      = some "expenses:rent:tax"
  ∧ (Action.Execute missingCapAction rentPosting [("1", "rent")]).map Posting.account
      = some "x" := by
  refine ⟨?_, ?_, by decide, by decide, by decide, by decide⟩
  · intro a p m q hp
    unfold Action.Execute
    rw [hp]
    rfl
  · intro a p m q l hp hne hl hacc
    unfold Action.Execute
    rw [hp]
    simp only [Option.map_some']
    rw [hacc, replaceTemplateVars_placeholder l _ hne hl]

/-! ## Claim theorems: the fy helper -/

/-- C9 (counterexample). The `fy` helper does not render each year
component as exactly two digits: for March 2005 it yields `"FY45"`
(components `4` and `5` printed by `%d` without padding), not the
claimed two-digit `"FY0405"`. -/
theorem fy_not_two_digit_cex :
    fy ⟨2005, 3, 15⟩ = "FY45"
  ∧ fyClaimed ⟨2005, 3, 15⟩ = "FY0405"
  ∧ fy ⟨2005, 3, 15⟩ ≠ fyClaimed ⟨2005, 3, 15⟩ := by
  refine ⟨by decide, by decide, by decide⟩

/-! ## Lemmas about the rewrite engine -/

/-- The trigger loop only records — hence only evaluates matchers for —
pairs that pass the self-exclusion check. -/
theorem runTriggersOnPosting_trace_sound (tx : Transaction) (i : Nat) (p : Posting) :
    ∀ (trs : List Trigger) (ps : List Posting) (trace : List (Int × Posting)),
    (∀ q ∈ trace, q.2.generatedBy ≠ q.1) →
    ∀ q ∈ (runTriggersOnPosting tx i p trs ps trace).2, q.2.generatedBy ≠ q.1 := by
  intro trs
  induction trs with
  | nil =>
    intro ps trace h
    simpa [runTriggersOnPosting] using h
  | cons t rest ih =>
    intro ps trace h
    simp only [runTriggersOnPosting]
    by_cases hskip : p.generatedBy = t.id
    · rw [if_pos hskip]
      exact ih ps trace h
    · rw [if_neg hskip]
      have hgood : ∀ q ∈ trace ++ [(t.id, p)], q.2.generatedBy ≠ q.1 := by
        intro q hq
        rcases List.mem_append.mp hq with hq | hq
        · exact h q hq
        · rcases List.mem_singleton.mp hq with rfl
          simpa using hskip
      by_cases hm : (Trigger.Match t { tx with postings := ps } p).1 = true
      · rw [if_pos hm]
        cases hexec : execActions t.id i p (Trigger.Match t { tx with postings := ps } p).2 t.actions with
        | none => simpa using hgood
        | some news => exact ih (ps ++ news) _ hgood
      · rw [if_neg hm]
        exact ih ps _ hgood

/-- The outer loop preserves the trace soundness invariant. -/
theorem rewriteLoop_trace_sound (limit : Nat) (trs : List Trigger) (tx : Transaction) :
    ∀ (fuel i : Nat) (ps : List Posting) (trace : List (Int × Posting)),
    (∀ q ∈ trace, q.2.generatedBy ≠ q.1) →
    ∀ q ∈ (rewriteLoop limit trs tx fuel i ps trace).2, q.2.generatedBy ≠ q.1 := by
  intro fuel
  induction fuel with
  | zero =>
    intro i ps trace h
    simpa [rewriteLoop] using h
  | succ fuel ih =>
    intro i ps trace h
    simp only [rewriteLoop]
    by_cases hlt : i < ps.length
    · rw [dif_pos hlt]
      have hrun := runTriggersOnPosting_trace_sound tx i (ps.get ⟨i, hlt⟩) trs ps trace h
      cases hres : runTriggersOnPosting tx i (ps.get ⟨i, hlt⟩) trs ps trace with
      | mk fst trace' =>
        rw [hres] at hrun
        cases fst with
        | none => simpa using hrun
        | some ps' =>
          by_cases hcyc : limit < ps'.length
          · simpa [hcyc] using hrun
          · simpa [hcyc] using ih (i + 1) ps' trace' hrun
    · rw [dif_neg hlt]
      exact h

/-- Fuel sufficiency of the outer loop: once the posting list is within
the ceiling, `limit + 1 - i` units of fuel always finish. -/
theorem rewriteLoop_fueled (limit : Nat) (trs : List Trigger) (tx : Transaction) :
    ∀ (fuel i : Nat) (ps : List Posting) (trace : List (Int × Posting)),
    ps.length ≤ limit → limit + 1 - i ≤ fuel → 1 ≤ fuel →
    (rewriteLoop limit trs tx fuel i ps trace).1 ≠ RewriteResult.outOfFuel := by
  intro fuel
  induction fuel with
  | zero =>
    intro i ps trace _ _ h3
    omega
  | succ fuel ih =>
    intro i ps trace hlen hfuel _
    simp only [rewriteLoop]
    by_cases hlt : i < ps.length
    · rw [dif_pos hlt]
      cases hres : runTriggersOnPosting tx i (ps.get ⟨i, hlt⟩) trs ps trace with
      | mk fst trace' =>
        cases fst with
        | none => simp
        | some ps' =>
          by_cases hcyc : limit < ps'.length
          · simp [hcyc]
          · simpa [hcyc] using ih (i + 1) ps' trace' (by omega) (by omega) (by omega)
    · rw [dif_neg hlt]
      simp

/-- The fuel `applyTriggersTx` supplies is never exhausted: the embedded
rewrite loop always returns a real outcome of the Go loop. -/
theorem applyTriggersTx_no_fuelOut (limit : Nat) (trs : List Trigger) (tx : Transaction) :
    (applyTriggersTx limit trs tx).1 ≠ RewriteResult.outOfFuel := by
  unfold applyTriggersTx
  simp only [rewriteLoop]
  by_cases hlt : 0 < tx.postings.length
  · rw [dif_pos hlt]
    cases hres : runTriggersOnPosting tx 0 (tx.postings.get ⟨0, hlt⟩) trs tx.postings [] with
    | mk fst trace' =>
      cases fst with
      | none => simp
      | some ps' =>
        by_cases hcyc : limit < ps'.length
        · simp [hcyc]
        · simpa [hcyc] using rewriteLoop_fueled limit trs tx (limit + 1) 1 ps' trace'
            (by omega) (by omega) (by omega)
  · rw [dif_neg hlt]
    simp

/-- `Action.Execute` returns nothing (the Go nil dereference panic)
exactly when the source posting's amount is unset. -/
theorem execute_none_iff (a : Action) (p : Posting) (m : Captures) :
    Action.Execute a p m = none ↔ p.amount = none := by
  unfold Action.Execute
  cases p.amount <;> simp

/-- Every posting `Action.Execute` constructs carries a set amount. -/
theorem execute_amount_set (a : Action) (p : Posting) (m : Captures) (out : Posting)
    (h : Action.Execute a p m = some out) : out.amount.isSome = true := by
  unfold Action.Execute at h
  cases hp : p.amount with
  | none => rw [hp] at h; simp at h
  | some q =>
    rw [hp] at h
    simp only [Option.some.injEq] at h
    rw [← h]
    rfl

/-- When the source posting's amount is set, executing a trigger's
actions succeeds and every generated posting has a set amount. -/
theorem execActions_isSome (trId : Int) (i : Nat) (p : Posting) (m : Captures)
    (hp : p.amount.isSome = true) (acts : List Action) :
    ∃ news, execActions trId i p m acts = some news ∧
      ∀ q ∈ news, q.amount.isSome = true := by
  induction acts with
  | nil => exact ⟨[], rfl, by simp⟩
  | cons a rest ih =>
    obtain ⟨news, hnews, hall⟩ := ih
    cases hE : Action.Execute a p m with
    | none =>
      rw [execute_none_iff] at hE
      rw [hE] at hp
      simp at hp
    | some out =>
      refine ⟨{ out with generatedBy := trId, fromIdx := (i : Int) + 1 } :: news, ?_, ?_⟩
      · simp [execActions, hE, hnews]
      · intro q hq
        rcases List.mem_cons.mp hq with rfl | hq
        · simpa using execute_amount_set a p m out hE
        · exact hall q hq

/-- The trigger loop never panics when the scanned posting and the list
it grows have set amounts, and it preserves that property. -/
theorem runTriggersOnPosting_preserves (tx : Transaction) (i : Nat) (p : Posting)
    (hp : p.amount.isSome = true) :
    ∀ (trs : List Trigger) (ps : List Posting) (trace : List (Int × Posting)),
    (∀ q ∈ ps, q.amount.isSome = true) →
    ∃ ps' trace', runTriggersOnPosting tx i p trs ps trace = (some ps', trace') ∧
      ∀ q ∈ ps', q.amount.isSome = true := by
  intro trs
  induction trs with
  | nil => exact fun ps trace hps => ⟨ps, trace, rfl, hps⟩
  | cons t rest ih =>
    intro ps trace hps
    simp only [runTriggersOnPosting]
    by_cases hskip : p.generatedBy = t.id
    · rw [if_pos hskip]
      exact ih ps trace hps
    · rw [if_neg hskip]
      by_cases hm : (Trigger.Match t { tx with postings := ps } p).1 = true
      · rw [if_pos hm]
        obtain ⟨news, hnews, hall⟩ :=
          execActions_isSome t.id i p (Trigger.Match t { tx with postings := ps } p).2 hp t.actions
        rw [hnews]
        have hps' : ∀ q ∈ ps ++ news, q.amount.isSome = true := by
          intro q hq
          rcases List.mem_append.mp hq with hq | hq
          · exact hps q hq
          · exact hall q hq
        exact ih (ps ++ news) _ hps'
      · rw [if_neg hm]
        exact ih ps _ hps

/-- The outer loop never hits the nil-amount panic when every posting of
the transaction has a set amount. -/
theorem rewriteLoop_no_panic (limit : Nat) (trs : List Trigger) (tx : Transaction) :
    ∀ (fuel i : Nat) (ps : List Posting) (trace : List (Int × Posting)),
    (∀ q ∈ ps, q.amount.isSome = true) →
    (rewriteLoop limit trs tx fuel i ps trace).1 ≠ RewriteResult.panicNil := by
  intro fuel
  induction fuel with
  | zero =>
    intro i ps trace _
    simp [rewriteLoop]
  | succ fuel ih =>
    intro i ps trace hps
    simp only [rewriteLoop]
    by_cases hlt : i < ps.length
    · rw [dif_pos hlt]
      have hp : (ps.get ⟨i, hlt⟩).amount.isSome = true := hps _ (List.get_mem ps i hlt)
      obtain ⟨ps', trace', hrun, hall⟩ :=
        runTriggersOnPosting_preserves tx i (ps.get ⟨i, hlt⟩) hp trs ps trace hps
      rw [hrun]
      by_cases hcyc : limit < ps'.length
      · simp [hcyc]
      · simpa [hcyc] using ih (i + 1) ps' trace' hall
    · rw [dif_neg hlt]
      simp

/-! ## Claim theorems: the rewrite engine -/

/-- C3. During trigger rewriting a trigger is never applied to a posting
whose `generatedBy` equals that trigger's id: the rewrite loop's trace
records exactly the (trigger id, posting) pairs whose matchers were
evaluated (and a trigger's actions execute only directly after such an
evaluation of the same pair), and every recorded pair passed the
self-exclusion check, for every trigger set, transaction and ceiling. -/
theorem rewrite_self_exclusion (limit : Nat) (trs : List Trigger) (tx : Transaction)
    (q : Int × Posting) (hq : q ∈ (applyTriggersTx limit trs tx).2) :
    q.2.generatedBy ≠ q.1 :=
  rewriteLoop_trace_sound limit trs tx (limit + 2) 0 tx.postings [] (by simp) q hq

/-- Witness for C3: running the self-matching trigger `trSelf` over
`cycTx` evaluates exactly one pair — trigger 1 against the user posting
(`generatedBy = 0`) — and that pair satisfies the exclusion; the posting
`trSelf` generated (`generatedBy = 1`) is never matched again. -/
theorem rewrite_self_exclusion_witness :
    ((1 : Int), cycP).2.generatedBy ≠ ((1 : Int), cycP).1 :=
  rewrite_self_exclusion 5 [trSelf] cycTx ((1 : Int), cycP) (by decide)

set_option maxRecDepth 8000 in
/-- C4. The rewrite loop terminates for every transaction, trigger set
and ceiling (the embedded loop always yields an outcome of the Go loop,
never fuel exhaustion: after each posting index the total posting count
is checked against the ceiling and the loop either finishes, aborts
with the fatal cycle error, or panics on a nil amount); and the
concrete mutually-matching trigger pair `trCycA`/`trCycB` (each
generating the account the other matches) hits the fatal
`"posting cycle detected"` error at ceiling 100 rather than growing the
transaction unboundedly. -/
theorem rewrite_terminates_and_detects_cycles :
    (∀ (limit : Nat) (trs : List Trigger) (tx : Transaction),
        (applyTriggersTx limit trs tx).1 ≠ RewriteResult.outOfFuel)
  ∧ (applyTriggersTx 100 [trCycA, trCycB] cycTx).1.isCycleDetected = true :=
  ⟨applyTriggersTx_no_fuelOut, by decide⟩

/-- C10. `Action.Execute` unconditionally dereferences the source
posting's amount, and the rewrite engine runs before auto-balance, so
rewriting a transaction whose elided posting is matched by a trigger
faults: concretely, `trOnX` against `elidedMatchedTx` (one elided
posting on the matched account `"x"`) makes the rewrite stage hit the
nil-amount panic instead of producing a posting; and rewriting is total
under the precondition that every posting has a set amount. -/
theorem rewrite_faults_on_elided_matched :
    (applyTriggersTx 100 [trOnX] elidedMatchedTx).1 = RewriteResult.panicNil
  ∧ (∀ (limit : Nat) (trs : List Trigger) (tx : Transaction),
      (∀ q ∈ tx.postings, q.amount.isSome = true) →
      (applyTriggersTx limit trs tx).1 ≠ RewriteResult.panicNil) := by
  constructor
  · decide
  · intro limit trs tx h
    exact rewriteLoop_no_panic limit trs tx (limit + 2) 0 tx.postings [] h

/-- C9 (amended). For every date, `fy` returns
`FY<(year-1) mod 100><year mod 100>` when the month is January–June and
`FY<year mod 100><(year+1) mod 100>` otherwise, each component the
plain (unpadded) decimal rendering of the truncated remainder — two
characters only when the remainder has two digits. -/
theorem fy_eq_fyAmended (d : GoDate) : fy d = fyAmended d := by
  unfold fy fyAmended
  by_cases h : (1 ≤ d.month && d.month ≤ 6) = true
  · simp [h]
  · simp [h]

end Accounting
